import Mathlib

/-
Verification of the task.js execution and composition engine
(source file src/unnamed/part_001).

The development embeds the library shallowly:

Values are a small inductive covering the JavaScript values the library
manipulates.  A promise settlement is an Outcome.  One run of a task
template, as observed by Task.prototype.do (source lines 360 to 396), is
an Execution: the ordered handle calls made synchronously, the way the
synchronous run ends, and the settlement attempts that arrive later
(late handle calls, the settlement of a returned promise).  The promise
returned by do settles with the first attempt; later attempts are kept
but ignored, exactly as the native promise resolve and reject behave.

The composition operators sequence, try, parallel, map and delay
(source lines 129 to 345) are embedded as functions over element tasks,
and the mutable per-instance fields _cancel and _timeout together with
the timers are embedded as an explicit state machine further below.
-/

namespace TaskJS

/-- JavaScript values, restricted to the shapes the library manipulates. -/
inductive Value : Type
  | undef : Value
  | null : Value
  | bool (b : Bool) : Value
  | num (n : Int) : Value
  | str (s : String) : Value
  | arr (elems : List Value) : Value
  | error (msg : String) : Value

/-- Settlement of a promise: resolved with a value or rejected with a reason. -/
inductive Outcome : Type
  | resolved (v : Value)
  | rejected (r : Value)

/-- A call of one of the two injected handles of a template. -/
inductive Signal : Type
  | done (v : Value)
  | failed (r : Value)

/-- The settlement a handle call asks for: done resolves, failed rejects. -/
def Signal.toOutcome : Signal → Outcome
  | .done v => .resolved v
  | .failed r => .rejected r

/-- How the synchronous run of a template body ends. -/
inductive SyncTermination : Type
  | throwsErr (e : Value)
  | retUndef
  | retPlain (v : Value)
  | retPromise

/-- One execution of a template as observed by Task.prototype.do:
the handle calls made during the synchronous run, in order; the way the
synchronous run ends; and the settlement attempts that arrive after the
synchronous run (late handle calls, or the settlement of a returned
promise when the termination is retPromise). -/
structure Execution : Type where
  syncSigs : List Signal
  term : SyncTermination
  asyncAttempts : List Outcome

/-- Settlement attempts produced by the termination of the synchronous
run, per lines 388 to 394 of the source: a thrown value makes the promise
executor reject; a returned non-promise value other than undefined is
passed to the resolve handle; a returned promise and a returned undefined
produce no synchronous attempt of their own. -/
def termAttempts : SyncTermination → List Outcome
  | .throwsErr err => [.rejected err]
  | .retUndef => []
  | .retPlain v => [.resolved v]
  | .retPromise => []

/-- Settlement attempts produced synchronously: every synchronous handle
call attempts to settle, then the termination contributes its attempt. -/
def syncAttempts (e : Execution) : List Outcome :=
  e.syncSigs.map Signal.toOutcome ++ termAttempts e.term

/-- All settlement attempts of an execution, synchronous ones first. -/
def allAttempts (e : Execution) : List Outcome :=
  syncAttempts e ++ e.asyncAttempts

/-- The native promise settlement rule: the first resolve or reject call
wins, every later call is ignored and raises nothing. -/
def settleFirst (s : Option Outcome) (a : Outcome) : Option Outcome :=
  match s with
  | some o => some o
  | none => some a

/-- The settlement of the promise returned by Task.prototype.do:
the first attempt wins; none means the promise is still pending. -/
def doOutcome (e : Execution) : Option Outcome :=
  (allAttempts e).foldl settleFirst none

/-- An element task of a composite: invoked with an argument list, it
settles synchronously with an outcome (the shape of the element tasks in
the composition claims). -/
abbrev ElemTask := List Value → Outcome

/-- The body of the composite built by Task.sequence, lines 147 to 156 of
the source.  The closure keeps the element list; the inner function next
removes the first element with shift (a destructive update of the list
the closure shares across executions), runs it, and feeds the resolution
value to the recursive call; with no elements left it resolves with the
first of the current arguments (Promise.resolve takes one argument).
Returns the outcome, the element list left in the closure afterwards,
and how many elements were invoked. -/
def seqNext : List ElemTask → List Value → Outcome × List ElemTask × Nat
  | [], args => (.resolved (args.headD .undef), [], 0)
  | t :: rest, args =>
    match t args with
    | .resolved v =>
      let r := seqNext rest [v]
      (r.1, r.2.1, r.2.2 + 1)
    | .rejected e => (.rejected e, rest, 1)

/-- Example element task that adds k to a numeric first argument, the
shape of the templates in the claim C3 example. -/
def addTo (k : Int) : ElemTask := fun args =>
  match args.headD .undef with
  | .num n => .resolved (.num (n + k))
  | _ => .rejected (.error "not a number")

/-- Example element task that always calls failed with the given reason. -/
def failWith (r : Value) : ElemTask := fun _ => .rejected r

/-- Underlying template of a try composite viewed across its repeated
invocations inside one composite execution: the outcome of the k-th
invocation (a template may behave differently from try to try). -/
abbrev AttemptFn := Nat → Outcome

/-- The inner function tryOnce of Task.try, lines 246 to 252 of the
source, instrumented with the invocation index k: with a positive
remaining budget the template is invoked once, and a rejection recurses
with the budget decremented and that rejection reason kept; with the
budget exhausted it rejects with the reason of the most recent failure
(undefined when the template was never invoked).  The second component
is the total number of invocations made (k starts at 0). -/
def tryOnce (tpl : AttemptFn) (k : Nat) (tries : Int) (err : Value) : Outcome × Nat :=
  if _h : 0 < tries then
    match tpl k with
    | .resolved v => (.resolved v, k + 1)
    | .rejected r => tryOnce tpl (k + 1) (tries - 1) r
  else
    (.rejected err, k)
termination_by tries.toNat
decreasing_by omega

/-- The body of the composite built by Task.try, lines 236 to 253: the
last argument of do is the budget, the initial error is undefined. -/
def tryRun (tpl : AttemptFn) (tries : Int) : Outcome × Nat :=
  tryOnce tpl 0 tries (.undef)

/-- Example template for the C7 witness: the first two invocations fail
with their index as reason, the third succeeds. -/
def tryWitnessTpl : AttemptFn := fun k =>
  if k < 2 then .rejected (.num (k : Int)) else .resolved (.str "ok")

/-- The rejection of a group of started executions that settles first:
the fold keeps the rejection with the smallest completion time, ties
going to the earlier element.  This is how the native Promise.all picks
its rejection reason among already started executions. -/
def rejStep (acc : Option (Nat × Value)) (x : Nat × Outcome) :
    Option (Nat × Value) :=
  match x.2 with
  | .resolved _ => acc
  | .rejected r =>
    match acc with
    | none => some (x.1, r)
    | some (t, r0) => if x.1 < t then some (x.1, r) else some (t, r0)

def firstRejection (xs : List (Nat × Outcome)) : Option (Nat × Value) :=
  xs.foldl rejStep none

/-- The value carried by a settlement. -/
def settledValue : Outcome → Value
  | .resolved v => v
  | .rejected r => r

/-- Promise.all over started element executions given with their
completion times: rejects with the reason of the rejection that settles
first; with no rejection at all it resolves with the list of element
values in element order, whatever the completion times were. -/
def promiseAll (xs : List (Nat × Outcome)) : Outcome :=
  match firstRejection xs with
  | some (_, r) => .rejected r
  | none => .resolved (.arr (xs.map fun x => settledValue x.2))

/-- Line 204 of the source: an array argument-group is spread, a bare
value becomes a one-element argument list. -/
def wrapArgs : Value → List Value
  | .arr vs => vs
  | v => [v]

/-- Line 207 of the source: element i receives argument group i; an
index beyond the supplied groups reads undefined in the source, and
apply with undefined invokes the element with no arguments. -/
def argGroup (args : List Value) (i : Nat) : List Value :=
  match args[i]? with
  | some v => wrapArgs v
  | none => []

/-- The body of the composite built by Task.parallel, lines 201 to 209
of the source: every element is invoked in the same synchronous turn
with its own argument group; the completion times (one per element,
defaulting to 0) only order the settlements; the composite outcome is
the outcome of Promise.all over the element executions. -/
def parallelRun (tasks : List ElemTask) (times : List Nat) (args : List Value) :
    Outcome :=
  promiseAll ((List.range tasks.length).map fun i =>
    (times.getD i 0, (tasks.getD i (failWith .undef)) (argGroup args i)))

/-- Example element for claim C6: adds one to the first argument. -/
def pAdd1 : ElemTask := addTo 1

/-- Example element for claim C6: adds its first two arguments plus two. -/
def pSum2 : ElemTask := fun args =>
  match args.getD 0 .undef, args.getD 1 .undef with
  | .num a, .num b => .resolved (.num (a + b + 2))
  | _, _ => .rejected (.error "not numbers")

/-- Example element for claim C6: resolves with three, ignoring its
arguments. -/
def pConst3 : ElemTask := fun _ => .resolved (.num 3)

/-- The rejection reason raised by the map composite for a non-array
argument, line 294 of the source. -/
def mapErr : Value := .error "Argument to Task#do() must be an array."

/-- A map template: invoked with one item, it settles with an outcome. -/
abbrev ItemTask := Value → Outcome

/-- The body of the composite built by Task.map, lines 292 to 300 of the
source, expressed as the Execution it presents to Task.prototype.do: a
non-array argument throws synchronously, which the promise executor
turns into a rejection of the future rather than a synchronous throw out
of do; an array argument returns the Promise.all promise over one fresh
invocation of the template per item, whose settlement is the single
later attempt. -/
def mapBody (tpl : ItemTask) (arg : Value) : Execution :=
  match arg with
  | .arr items =>
    ⟨[], .retPromise, [promiseAll (items.map fun item => (0, tpl item))]⟩
  | _ => ⟨[], .throwsErr mapErr, []⟩

/-- Executing the map composite: the outcome do delivers for its body. -/
def mapRun (tpl : ItemTask) (arg : Value) : Option Outcome :=
  doOutcome (mapBody tpl arg)

/-- Example template for claim C8: adds one to a numeric item. -/
def nAdd1 : ItemTask := fun item =>
  match item with
  | .num n => .resolved (.num (n + 1))
  | _ => .rejected (.error "not a number")

/-- A pending delayed invocation created by the body of a delay
composite, lines 340 to 343 of the source: the absolute firing time of
its setTimeout timer, the execution whose handles receive the inner
outcome, the outcome the inner template invocation settles with, and
whether the timer has fired (firing is also the invocation of the inner
template). -/
structure DelayEntry : Type where
  fireAt : Nat
  ex : Nat
  out : Outcome
  fired : Bool

/-- The state of one Task instance and its executions and timers: the
clock in milliseconds, advanced one step at a time; the number of do
calls made so far; the _cancel field as the identifier of the execution
whose _reject it holds, none for null; the _timeout field as the
configured duration and reason, none for null; per execution the
settlement of its promise, none while pending; per execution the local
timer armed from the configured timeout when that execution started,
as absolute firing time and bound reason, none once cleared or fired;
and the delayed invocations scheduled by delay composite bodies. -/
structure MState : Type where
  now : Nat
  nDos : Nat
  cancelSlot : Option Nat
  timeoutCfg : Option (Int × Value)
  outcomes : List (Option Outcome)
  armed : List (Option (Nat × Value))
  delays : List DelayEntry

/-- A fresh Task: both fields null, no execution yet (lines 27 to 46). -/
def mkTask : MState := ⟨0, 0, none, none, [], [], []⟩

/-- The body shared by _resolve and _reject for execution j, lines 368
to 385 of the source: clear the local timer of execution j, null the
_timeout and _cancel fields of the task unconditionally, then call the
native resolve or reject, which settles the promise of execution j only
if it is still pending. -/
def settleStep (s : MState) (j : Nat) (o : Outcome) : MState :=
  { s with
    armed := s.armed.set j none
    timeoutCfg := none
    cancelSlot := none
    outcomes :=
      if (s.outcomes.getD j none).isNone
      then s.outcomes.set j (some o)
      else s.outcomes }

/-- What a template does during its synchronous run, for the state
machine: either the general shape of claim C1, handle calls followed by
a termination, or the body of a delay composite, which schedules the
inner invocation after d milliseconds and returns undefined (lines 328
to 344 of the source; the scheduled inner invocation settles with the
given outcome). -/
inductive TemplateAct : Type
  | sync (sigs : List Signal) (term : SyncTermination)
  | delayedCall (d : Int) (o : Outcome)

/-- The native settlement performed by the promise constructor when the
template body throws: the executor of lines 364 to 395 has no catch, so
the exception escapes it and the native machinery rejects the promise if
it is still pending; the _resolve and _reject wrappers never run, so the
_cancel and _timeout fields and the armed timer are left untouched. -/
def nativeSettle (s : MState) (j : Nat) (o : Outcome) : MState :=
  { s with
    outcomes :=
      if (s.outcomes.getD j none).isNone
      then s.outcomes.set j (some o)
      else s.outcomes }

/-- Lines 388 to 394 of the source, once the template body has returned
or thrown: a thrown value settles the promise natively, bypassing the
wrappers; a returned plain value other than undefined is passed to the
_resolve wrapper; a returned promise only chains the wrappers for later
(its settlement arrives as a signal event); a returned undefined does
nothing. -/
def termSettle (st : MState) (ex : Nat) : SyncTermination → MState
  | .throwsErr e => nativeSettle st ex (.rejected e)
  | .retPlain v => settleStep st ex (.resolved v)
  | .retUndef => st
  | .retPromise => st

/-- Task.prototype.do, lines 360 to 396, as a state transition: a new
execution begins; when a timeout is configured, calling the stored
_timeout function arms a local timer for the new execution while the
configuration itself stays stored; _cancel is set to the _reject of the
new execution; then the template runs: its synchronous handle calls run
the wrappers in order, and its termination settles per termSettle (a
throw through the native reject that bypasses the wrappers, a plain
return through the _resolve wrapper); a delay body instead schedules the
inner invocation. -/
def doStep (s : MState) (act : TemplateAct) : MState :=
  let ex := s.nDos
  let timer : Option (Nat × Value) :=
    match s.timeoutCfg with
    | some (m, r) => some (s.now + m.toNat, r)
    | none => none
  let s1 : MState :=
    { s with
      nDos := ex + 1
      outcomes := s.outcomes ++ [none]
      armed := s.armed ++ [timer]
      cancelSlot := some ex }
  match act with
  | .sync sigs term =>
    termSettle
      ((sigs.map Signal.toOutcome).foldl (fun st o => settleStep st ex o) s1)
      ex term
  | .delayedCall d o =>
    { s1 with delays := s1.delays ++ [⟨s1.now + d.toNat, ex, o, false⟩] }

/-- Task.prototype.cancel, lines 421 to 427 of the source: when the
_cancel field holds a function it is called with the reason; otherwise
nothing happens. -/
def cancelStep (s : MState) (reason : Value) : MState :=
  match s.cancelSlot with
  | some j => settleStep s j (.rejected reason)
  | none => s

/-- The boolean Task.prototype.cancel returns in state s. -/
def cancelRet (s : MState) : Bool := s.cancelSlot.isSome

/-- The typeof number test on line 457 of the source. -/
def isNum : Value → Bool
  | .num _ => true
  | _ => false

/-- Task.prototype.timeout, lines 456 to 467 of the source: a non-number
duration throws before touching any state, so the state is returned
unchanged and the throw is reported by timeoutThrows; while _cancel
holds a function the call returns false and changes nothing; otherwise
the duration and reason are stored in _timeout and the call returns
true. -/
def timeoutStep (s : MState) (ms reason : Value) : MState :=
  match ms with
  | .num m =>
    if s.cancelSlot.isSome then s
    else { s with timeoutCfg := some (m, reason) }
  | _ => s

/-- Whether a timeout call with this duration throws, line 457. -/
def timeoutThrows (ms : Value) : Bool := !isNum ms

/-- The boolean a non-throwing timeout call returns in state s. -/
def timeoutRet (s : MState) (ms : Value) : Bool :=
  isNum ms && !s.cancelSlot.isSome

/-- Firing of the due local timer of execution j: the timer is consumed
and the stored callback, this.cancel bound to the reason (line 462),
runs against whatever execution currently owns the _cancel field. -/
def fireTimer (st : MState) (j : Nat) : MState :=
  match st.armed.getD j none with
  | some (t, r) =>
    if t ≤ st.now then
      cancelStep { st with armed := st.armed.set j none } r
    else st
  | none => st

def fireTimers (s : MState) : MState :=
  (List.range s.armed.length).foldl fireTimer s

/-- Firing of a due delayed invocation: the inner task runs the template
(the entry is marked fired) and its outcome is delivered to the handles
of the scheduling execution (line 342 of the source); cancellation never
clears this timer, so it fires even when the promise has already been
settled. -/
def fireDelay (st : MState) (i : Nat) : MState :=
  match st.delays[i]? with
  | some e =>
    if e.fireAt ≤ st.now && !e.fired then
      settleStep { st with delays := st.delays.set i { e with fired := true } }
        e.ex e.out
    else st
  | none => st

def fireDelays (s : MState) : MState :=
  (List.range s.delays.length).foldl fireDelay s

/-- One millisecond of time: the clock advances, then due local timers
fire in arming order, then due delayed invocations fire in scheduling
order. -/
def tick (s : MState) : MState :=
  fireDelays (fireTimers { s with now := s.now + 1 })

/-- The events the public Task interface generates: a timeout call, a do
call running a template, a cancel call, an asynchronous handle call by
the template of an execution (late calls included), and the clock. -/
inductive Ev : Type
  | timeoutE (ms reason : Value)
  | doE (act : TemplateAct)
  | cancelE (reason : Value)
  | sigE (ex : Nat) (o : Outcome)
  | tickE

/-- One step of the Task state machine. -/
def step (s : MState) : Ev → MState
  | .timeoutE ms r => timeoutStep s ms r
  | .doE act => doStep s act
  | .cancelE r => cancelStep s r
  | .sigE ex o => settleStep s ex o
  | .tickE => tick s

/-- Running a list of events from a state. -/
def run (s : MState) (evs : List Ev) : MState := evs.foldl step s

/-- Execution ex has started and its promise has not settled. -/
def outstanding (s : MState) (ex : Nat) : Prop :=
  ex < s.nDos ∧ (s.outcomes.getD ex none).isNone = true

/-- The state while an execution armed with a timeout of m milliseconds
and reason r is pending at time j: configuration still stored, the local
timer armed to fire at absolute time m. -/
def psState (m : Nat) (r : Value) (j : Nat) : MState :=
  ⟨j, 1, some 0, some ((m : Int), r), [none], [some (m, r)], []⟩

/-- The state after the armed timeout fired at time j and rejected the
execution with reason r. -/
def timeoutFired (r : Value) (j : Nat) : MState :=
  ⟨j, 1, none, none, [some (.rejected r)], [none], []⟩

/-- The state while a delay composite execution waits, at time j: the
future pending, the execution owning _cancel, the inner invocation
scheduled at absolute time d with eventual outcome o. -/
def delayPending (d : Nat) (o : Outcome) (j : Nat) : MState :=
  ⟨j, 1, some 0, none, [none], [none], [⟨d, 0, o, false⟩]⟩

/-- The state after a waiting delay composite execution was cancelled
with reason r, at time j; the flag records whether the delay timer has
fired in the meantime (the rejection is unaffected either way). -/
def delayCancelled (d : Nat) (o : Outcome) (r : Value) (j : Nat)
    (fl : Bool) : MState :=
  ⟨j, 1, none, none, [some (.rejected r)], [none], [⟨d, 0, o, fl⟩]⟩

lemma foldl_settleFirst_some (l : List Outcome) (o : Outcome) :
    l.foldl settleFirst (some o) = some o := by
  induction l with
  | nil => rfl
  | cons a t ih => simpa [settleFirst] using ih

lemma foldl_settleFirst_cons (a : Outcome) (l : List Outcome) :
    (a :: l).foldl settleFirst none = some a := by
  simpa [settleFirst] using foldl_settleFirst_some l a

lemma doOutcome_of_head (e : Execution) (a : Outcome) (l : List Outcome)
    (h : allAttempts e = a :: l) : doOutcome e = some a := by
  rw [doOutcome, h]; exact foldl_settleFirst_cons a l

/-- Claim C1: a template that synchronously calls done resolves the future
with that value; calling failed rejects it with that reason; throwing
rejects it with the thrown value; returning a future hands the outcome to
that future; returning a plain non-undefined value resolves with it; and
returning undefined with no handle call leaves the future pending until a
handle is eventually called. -/
theorem c1_completion_contract :
    (∀ (v : Value) (rest : List Signal) (t : SyncTermination) (la : List Outcome),
      doOutcome ⟨Signal.done v :: rest, t, la⟩ = some (Outcome.resolved v)) ∧
    (∀ (r : Value) (rest : List Signal) (t : SyncTermination) (la : List Outcome),
      doOutcome ⟨Signal.failed r :: rest, t, la⟩ = some (Outcome.rejected r)) ∧
    (∀ (e : Value) (la : List Outcome),
      doOutcome ⟨[], SyncTermination.throwsErr e, la⟩ = some (Outcome.rejected e)) ∧
    (∀ (o : Outcome) (la : List Outcome),
      doOutcome ⟨[], SyncTermination.retPromise, o :: la⟩ = some o) ∧
    (∀ (v : Value) (la : List Outcome),
      doOutcome ⟨[], SyncTermination.retPlain v, la⟩ = some (Outcome.resolved v)) ∧
    (doOutcome ⟨[], SyncTermination.retUndef, []⟩ = none) ∧
    (∀ (o : Outcome) (la : List Outcome),
      doOutcome ⟨[], SyncTermination.retUndef, o :: la⟩ = some o) := by
  refine ⟨?_, ?_, ?_, ?_, ?_, rfl, ?_⟩
  · intro v rest t la
    exact doOutcome_of_head _ _ (rest.map Signal.toOutcome ++ termAttempts t ++ la)
      (by simp [allAttempts, syncAttempts, Signal.toOutcome])
  · intro r rest t la
    exact doOutcome_of_head _ _ (rest.map Signal.toOutcome ++ termAttempts t ++ la)
      (by simp [allAttempts, syncAttempts, Signal.toOutcome])
  · intro e la
    exact doOutcome_of_head _ _ la (by simp [allAttempts, syncAttempts, termAttempts])
  · intro o la
    exact doOutcome_of_head _ _ la (by simp [allAttempts, syncAttempts, termAttempts])
  · intro v la
    exact doOutcome_of_head _ _ la (by simp [allAttempts, syncAttempts, termAttempts])
  · intro o la
    exact doOutcome_of_head _ _ la (by simp [allAttempts, syncAttempts, termAttempts])

/-- Claim C2: the future returned by do settles exactly once: the first
settlement attempt determines the outcome, and any later done or failed
calls appended to the execution leave the settled outcome unchanged
(the embedded settlement rule settleFirst is total, so no exception is
raised by a late call). -/
theorem c2_settles_once :
    (∀ (e : Execution) (a : Outcome) (l : List Outcome),
      allAttempts e = a :: l → doOutcome e = some a) ∧
    (∀ (e : Execution) (o : Outcome) (extra : List Outcome),
      doOutcome e = some o →
      doOutcome ⟨e.syncSigs, e.term, e.asyncAttempts ++ extra⟩ = some o) := by
  constructor
  · intro e a l h
    exact doOutcome_of_head e a l h
  · intro e o extra h
    have hatt : allAttempts ⟨e.syncSigs, e.term, e.asyncAttempts ++ extra⟩
        = allAttempts e ++ extra := by
      simp [allAttempts, syncAttempts]
    rw [doOutcome, hatt, List.foldl_append]
    rw [doOutcome] at h
    rw [h]
    exact foldl_settleFirst_some extra o

/-- Witness for C2 at a concrete input: a template that called done with 1
keeps outcome 1 even when a late failed call with 2 arrives afterwards. -/
theorem c2_settles_once_witness :
    doOutcome ⟨[Signal.done (Value.num 1)], SyncTermination.retUndef,
      [Outcome.rejected (Value.num 2)]⟩ = some (Outcome.resolved (Value.num 1)) :=
  c2_settles_once.2 ⟨[Signal.done (Value.num 1)], SyncTermination.retUndef, []⟩
    (Outcome.resolved (Value.num 1)) [Outcome.rejected (Value.num 2)] rfl

/-- Claim C3 (evaluation at the failing input): the first execution of
the sequence composite behaves as claimed — elements adding 2, 3 and 4
invoked in order on initial argument 1 resolve with 10, and a failing
second element rejects with its reason with the third element never
invoked — but the body removes elements from the list the closure shares
across executions, so a second execution of the same composite with
argument 1 finds no elements left, invokes nothing, and resolves with 1
instead of running the elements again. -/
theorem c3_sequence_reexecution :
    (seqNext [addTo 2, addTo 3, addTo 4] [Value.num 1]).1
        = Outcome.resolved (Value.num 10) ∧
    (seqNext [addTo 2, addTo 3, addTo 4] [Value.num 1]).2.2 = 3 ∧
    (seqNext [addTo 2, failWith (Value.str "boom"), addTo 4] [Value.num 1]).1
        = Outcome.rejected (Value.str "boom") ∧
    (seqNext [addTo 2, failWith (Value.str "boom"), addTo 4] [Value.num 1]).2.2 = 2 ∧
    (seqNext ((seqNext [addTo 2, addTo 3, addTo 4] [Value.num 1]).2.1) [Value.num 1]).1
        = Outcome.resolved (Value.num 1) ∧
    (seqNext ((seqNext [addTo 2, addTo 3, addTo 4] [Value.num 1]).2.1) [Value.num 1]).2.2
        = 0 :=
  ⟨rfl, rfl, rfl, rfl, rfl, rfl⟩

lemma tryOnce_count_le (tpl : AttemptFn) :
    ∀ (n : Nat) (k : Nat) (tries : Int) (err : Value), tries.toNat = n →
      (tryOnce tpl k tries err).2 ≤ k + n := by
  intro n
  induction n with
  | zero =>
    intro k tries err hn
    rw [tryOnce]
    have hpos : ¬0 < tries := by omega
    simp [hpos]
  | succ n ih =>
    intro k tries err hn
    rw [tryOnce]
    have hpos : 0 < tries := by omega
    simp only [hpos, dif_pos]
    cases htpl : tpl k with
    | resolved v =>
      show k + 1 ≤ k + (n + 1)
      omega
    | rejected r =>
      show (tryOnce tpl (k + 1) (tries - 1) r).2 ≤ k + (n + 1)
      have := ih (k + 1) (tries - 1) r (by omega)
      omega

lemma tryOnce_success (tpl : AttemptFn) :
    ∀ (m : Nat) (k : Nat) (tries : Int) (err : Value) (v : Value)
      (reasons : Nat → Value),
      (∀ j, j < m → tpl (k + j) = .rejected (reasons (k + j))) →
      tpl (k + m) = .resolved v → (m : Int) < tries →
      tryOnce tpl k tries err = (.resolved v, k + m + 1) := by
  intro m
  induction m with
  | zero =>
    intro k tries err v reasons hrej hsucc hlt
    rw [tryOnce]
    have hpos : 0 < tries := by exact_mod_cast hlt
    simp only [hpos, dif_pos]
    have : tpl k = .resolved v := by simpa using hsucc
    rw [this]
  | succ m ih =>
    intro k tries err v reasons hrej hsucc hlt
    rw [tryOnce]
    have hpos : 0 < tries := by
      have : ((m : Int) + 1) < tries := by exact_mod_cast hlt
      omega
    simp only [hpos, dif_pos]
    have h0 : tpl k = .rejected (reasons k) := by simpa using hrej 0 (Nat.succ_pos m)
    rw [h0]
    have hres : tryOnce tpl (k + 1) (tries - 1) (reasons k)
        = (.resolved v, (k + 1) + m + 1) := by
      apply ih (k + 1) (tries - 1) (reasons k) v reasons
      · intro j hj
        have := hrej (j + 1) (by omega)
        have harg : k + (j + 1) = k + 1 + j := by omega
        rwa [harg] at this
      · have harg : k + (m + 1) = k + 1 + m := by omega
        rwa [harg] at hsucc
      · have : ((m : Int) + 1) < tries := by exact_mod_cast hlt
        omega
    show tryOnce tpl (k + 1) (tries - 1) (reasons k)
        = (Outcome.resolved v, k + (m + 1) + 1)
    have harith : k + (m + 1) + 1 = k + 1 + m + 1 := by omega
    rw [harith]
    exact hres

lemma tryOnce_exhaust (tpl : AttemptFn) :
    ∀ (n : Nat) (k : Nat) (err : Value) (reasons : Nat → Value),
      (∀ j, j < n → tpl (k + j) = .rejected (reasons (k + j))) → 0 < n →
      tryOnce tpl k (n : Int) err = (.rejected (reasons (k + (n - 1))), k + n) := by
  intro n
  induction n with
  | zero => intro k err reasons hrej h0; omega
  | succ n ih =>
    intro k err reasons hrej h0
    rw [tryOnce]
    have hpos : (0 : Int) < ((n + 1 : Nat) : Int) := by positivity
    simp only [hpos, dif_pos]
    have hk : tpl k = .rejected (reasons k) := by simpa using hrej 0 (Nat.succ_pos n)
    rw [hk]
    have hcast : ((n + 1 : Nat) : Int) - 1 = (n : Int) := by push_cast; ring
    show tryOnce tpl (k + 1) (((n + 1 : Nat) : Int) - 1) (reasons k)
        = (Outcome.rejected (reasons (k + (n + 1 - 1))), k + (n + 1))
    rw [hcast]
    simp only [Nat.add_sub_cancel]
    rcases Nat.eq_zero_or_pos n with hn | hn
    · subst hn
      rw [tryOnce]
      norm_num
    · have hrec := ih (k + 1) (reasons k) reasons ?_ hn
      · rw [hrec]
        have h1 : k + 1 + (n - 1) = k + n := by omega
        have h2 : k + 1 + n = k + (n + 1) := by omega
        rw [h1, h2]
      · intro j hj
        have := hrej (j + 1) (by omega)
        have harg : k + (j + 1) = k + 1 + j := by omega
        rwa [harg] at this

/-- Claim C7: executing the try composite with budget n invokes the
template at most n times; a budget of 0 never invokes it and rejects at
once (with reason undefined); if the first m invocations fail and the
next succeeds with v while m is below the budget, the composite resolves
with v after exactly m + 1 invocations; and if all n invocations within
the budget fail, the composite rejects with the most recent failure
reason. -/
theorem c7_try_retries :
    (∀ tpl : AttemptFn, tryRun tpl 0 = (Outcome.rejected Value.undef, 0)) ∧
    (∀ (tpl : AttemptFn) (n : Int), (tryRun tpl n).2 ≤ n.toNat) ∧
    (∀ (tpl : AttemptFn) (m : Nat) (n : Int) (v : Value) (reasons : Nat → Value),
      (∀ j, j < m → tpl j = .rejected (reasons j)) →
      tpl m = .resolved v → (m : Int) < n →
      tryRun tpl n = (.resolved v, m + 1)) ∧
    (∀ (tpl : AttemptFn) (n : Nat) (reasons : Nat → Value),
      (∀ j, j < n → tpl j = .rejected (reasons j)) → 0 < n →
      tryRun tpl (n : Int) = (.rejected (reasons (n - 1)), n)) := by
  refine ⟨?_, ?_, ?_, ?_⟩
  · intro tpl
    rw [tryRun, tryOnce]
    norm_num
  · intro tpl n
    simpa using tryOnce_count_le tpl n.toNat 0 n Value.undef rfl
  · intro tpl m n v reasons hrej hsucc hlt
    have := tryOnce_success tpl m 0 n Value.undef v reasons
      (by intro j hj; simpa using hrej j hj) (by simpa using hsucc) hlt
    simpa using this
  · intro tpl n reasons hrej h0
    have := tryOnce_exhaust tpl n 0 Value.undef reasons
      (by intro j hj; simpa using hrej j hj) h0
    simpa using this

/-- Witness for C7 at a concrete input: a template failing on its first
two invocations and succeeding on the third, run with budget 5, resolves
with the success value after exactly three invocations. -/
theorem c7_try_retries_witness :
    tryRun tryWitnessTpl 5 = (Outcome.resolved (Value.str "ok"), 3) :=
  c7_try_retries.2.2.1 tryWitnessTpl 2 5 (Value.str "ok")
    (fun k => Value.num (k : Int))
    (by intro j hj
        have : j < 2 := hj
        simp [tryWitnessTpl, this])
    (by simp [tryWitnessTpl])
    (by norm_num)

lemma firstRejection_none : ∀ (xs : List (Nat × Outcome)),
    (∀ x ∈ xs, ∃ v, x.2 = Outcome.resolved v) → firstRejection xs = none := by
  intro xs
  induction xs with
  | nil => intro _; rfl
  | cons a t ih =>
    obtain ⟨ta, oa⟩ := a
    intro h
    obtain ⟨v, hv⟩ := h (ta, oa) (List.mem_cons_self _ _)
    simp only at hv
    subst hv
    rw [firstRejection, List.foldl_cons]
    exact ih (fun x hx => h x (List.mem_cons_of_mem _ hx))

lemma foldl_rejStep_keep : ∀ (t : List (Nat × Outcome)) (tj : Nat) (r : Value),
    (∀ x ∈ t, ∀ rx, x.2 = Outcome.rejected rx → tj < x.1) →
    t.foldl rejStep (some (tj, r)) = some (tj, r) := by
  intro t
  induction t with
  | nil => intro tj r _; rfl
  | cons a t2 ih =>
    intro tj r h
    obtain ⟨ta, oa⟩ := a
    rw [List.foldl_cons]
    have hstep : rejStep (some (tj, r)) (ta, oa) = some (tj, r) := by
      cases oa with
      | resolved v => rfl
      | rejected rx =>
        have hlt : tj < ta := h (ta, .rejected rx) (List.mem_cons_self _ _) rx rfl
        simp only [rejStep]
        rw [if_neg (by omega : ¬ta < tj)]
    rw [hstep]
    exact ih tj r (fun x hx => h x (List.mem_cons_of_mem _ hx))

lemma foldl_rejStep_strict : ∀ (t : List (Nat × Outcome)) (j : Nat) (tj : Nat)
    (r : Value) (acc : Option (Nat × Value)),
    t[j]? = some (tj, Outcome.rejected r) →
    (∀ i x, i ≠ j → t[i]? = some x → ∀ rx, x.2 = Outcome.rejected rx → tj < x.1) →
    (acc = none ∨ ∃ ta ra, acc = some (ta, ra) ∧ tj < ta) →
    t.foldl rejStep acc = some (tj, r) := by
  intro t
  induction t with
  | nil => intro j tj r acc hj _ _; simp at hj
  | cons a t2 ih =>
    intro j tj r acc hj hothers hacc
    obtain ⟨ta, oa⟩ := a
    rw [List.foldl_cons]
    cases j with
    | zero =>
      have hhead : (ta, oa) = (tj, Outcome.rejected r) := by simpa using hj
      rw [Prod.mk.injEq] at hhead
      obtain ⟨h1, h2⟩ := hhead
      subst h1; subst h2
      have hstep : rejStep acc (ta, Outcome.rejected r) = some (ta, r) := by
        rcases hacc with hnone | ⟨ta0, ra0, hsome, hlt⟩
        · subst hnone; rfl
        · subst hsome
          simp only [rejStep]
          rw [if_pos (by omega : ta < ta0)]
      rw [hstep]
      apply foldl_rejStep_keep
      intro x hx rx hrx
      obtain ⟨i, hi⟩ := List.mem_iff_getElem?.mp hx
      exact hothers (i + 1) x (by omega) (by simpa using hi) rx hrx
    | succ jj =>
      have hj2 : t2[jj]? = some (tj, Outcome.rejected r) := by simpa using hj
      have hacc2 : rejStep acc (ta, oa) = none ∨
          ∃ ta2 ra2, rejStep acc (ta, oa) = some (ta2, ra2) ∧ tj < ta2 := by
        cases oa with
        | resolved v =>
          simpa only [rejStep] using hacc
        | rejected rx =>
          have hta : tj < ta :=
            hothers 0 (ta, .rejected rx) (by omega) (by simp) rx rfl
          rcases hacc with hnone | ⟨ta0, ra0, hsome, hlt⟩
          · subst hnone
            exact Or.inr ⟨ta, rx, rfl, hta⟩
          · subst hsome
            simp only [rejStep]
            by_cases hc : ta < ta0
            · rw [if_pos hc]
              exact Or.inr ⟨ta, rx, rfl, hta⟩
            · rw [if_neg hc]
              exact Or.inr ⟨ta0, ra0, rfl, hlt⟩
      apply ih jj tj r _ hj2 ?_ hacc2
      intro i x hi hx rx hrx
      exact hothers (i + 1) x (by omega) (by simpa using hx) rx hrx

lemma promiseAll_resolved (xs : List (Nat × Outcome))
    (h : ∀ x ∈ xs, ∃ v, x.2 = Outcome.resolved v) :
    promiseAll xs = .resolved (.arr (xs.map fun x => settledValue x.2)) := by
  rw [promiseAll, firstRejection_none xs h]

lemma promiseAll_rejected (xs : List (Nat × Outcome)) (j tj : Nat) (r : Value)
    (hj : xs[j]? = some (tj, Outcome.rejected r))
    (hothers : ∀ i x, i ≠ j → xs[i]? = some x →
      ∀ rx, x.2 = Outcome.rejected rx → tj < x.1) :
    promiseAll xs = .rejected r := by
  rw [promiseAll,
    show firstRejection xs = some (tj, r) from
      foldl_rejStep_strict xs j tj r none hj hothers (Or.inl rfl)]

/-- Claim C6: an execution of the parallel composite hands every element
its own argument group (an array group spread, a bare value as a single
argument); the example with elements adding one, summing two arguments
plus two, and returning three, executed with groups 1 and the pair 2 3,
resolves with 2, 7, 3 under every assignment of completion times; in
general, when every element resolves, the composite resolves with the
element results in element order whatever the completion times, and when
an element fails before every other failing element, the composite
rejects with that reason. -/
theorem c6_parallel :
    (∀ times : List Nat,
      parallelRun [pAdd1, pSum2, pConst3] times
          [Value.num 1, Value.arr [Value.num 2, Value.num 3]]
        = Outcome.resolved
            (Value.arr [Value.num 2, Value.num 7, Value.num 3])) ∧
    (∀ (tasks : List ElemTask) (times : List Nat) (args : List Value)
      (res : Nat → Value),
      (∀ i, i < tasks.length →
        (tasks.getD i (failWith .undef)) (argGroup args i) = .resolved (res i)) →
      parallelRun tasks times args
        = .resolved (.arr ((List.range tasks.length).map res))) ∧
    (∀ (tasks : List ElemTask) (times : List Nat) (args : List Value)
      (j : Nat) (r : Value),
      j < tasks.length →
      (tasks.getD j (failWith .undef)) (argGroup args j) = .rejected r →
      (∀ i, i < tasks.length → i ≠ j →
        ∀ rx, (tasks.getD i (failWith .undef)) (argGroup args i) = .rejected rx →
          times.getD j 0 < times.getD i 0) →
      parallelRun tasks times args = .rejected r) := by
  refine ⟨?_, ?_, ?_⟩
  · intro times
    rfl
  · intro tasks times args res h
    rw [parallelRun, promiseAll_resolved]
    · rw [List.map_map]
      congr 1
      congr 1
      apply List.map_congr_left
      intro i hi
      have hi2 : i < tasks.length := List.mem_range.mp hi
      simp [Function.comp, h i hi2, settledValue]
    · intro x hx
      obtain ⟨i, hi, hxi⟩ := List.mem_map.mp hx
      have hi2 : i < tasks.length := List.mem_range.mp hi
      exact ⟨res i, by rw [← hxi]; simpa using h i hi2⟩
  · intro tasks times args j r hj hrej hothers
    rw [parallelRun]
    apply promiseAll_rejected _ j (times.getD j 0) r
    · rw [List.getElem?_map, List.getElem?_range hj]
      show some (times.getD j 0, (tasks.getD j (failWith .undef)) (argGroup args j))
          = some (times.getD j 0, Outcome.rejected r)
      rw [hrej]
    · intro i x hi hx rx hrx
      rw [List.getElem?_map] at hx
      cases hri : (List.range tasks.length)[i]? with
      | none => rw [hri] at hx; simp at hx
      | some ival =>
        rw [hri] at hx
        have hi2 : i < tasks.length := by
          by_contra hge
          rw [List.getElem?_eq_none (by simpa using Nat.le_of_not_lt hge)] at hri
          exact Option.noConfusion hri
        have hival : i = ival := by
          rw [List.getElem?_range hi2] at hri
          exact Option.some.inj hri
        subst hival
        have hx4 : (times.getD i 0,
            (tasks.getD i (failWith Value.undef)) (argGroup args i)) = x :=
          Option.some.inj hx
        rw [← hx4] at hrx ⊢
        exact hothers i hi2 hi rx hrx

/-- Witness for C6 at a concrete input with nonuniform completion times:
the example of the claim resolves positionally even when the first
element finishes last. -/
theorem c6_parallel_witness :
    parallelRun [pAdd1, pSum2, pConst3] [9, 1, 4]
        [Value.num 1, Value.arr [Value.num 2, Value.num 3]]
      = Outcome.resolved (Value.arr [Value.num 2, Value.num 7, Value.num 3]) :=
  c6_parallel.1 [9, 1, 4]

/-- Claim C8: executing the map composite with a non-array sole argument
(whether truthy or falsy) rejects the returned future with the array
validation error, delivered through the future because the synchronous
throw happens inside the promise executor; with an array it invokes the
template once per item and resolves with the per-item results in order;
with the empty array it resolves with the empty collection; and the
concrete example adding one to 1, 2, 3 resolves with 2, 3, 4. -/
theorem c8_map :
    (∀ (tpl : ItemTask) (v : Value), (∀ items, v ≠ .arr items) →
      mapRun tpl v = some (.rejected mapErr)) ∧
    (mapRun nAdd1 (Value.bool false) = some (Outcome.rejected mapErr)) ∧
    (∀ (tpl : ItemTask) (items : List Value) (f : Value → Value),
      (∀ x ∈ items, tpl x = .resolved (f x)) →
      mapRun tpl (.arr items) = some (.resolved (.arr (items.map f)))) ∧
    (∀ tpl : ItemTask, mapRun tpl (.arr []) = some (.resolved (.arr []))) ∧
    (mapRun nAdd1 (Value.arr [Value.num 1, Value.num 2, Value.num 3])
      = some (Outcome.resolved (Value.arr [Value.num 2, Value.num 3, Value.num 4]))) := by
  refine ⟨?_, rfl, ?_, ?_, rfl⟩
  · intro tpl v h
    cases v with
    | arr items => exact absurd rfl (h items)
    | undef => rfl
    | null => rfl
    | bool b => rfl
    | num n => rfl
    | str s => rfl
    | error m => rfl
  · intro tpl items f h
    have hout : mapRun tpl (.arr items)
        = some (promiseAll (items.map fun item => (0, tpl item))) := by
      apply doOutcome_of_head _ _ []
      simp [mapBody, allAttempts, syncAttempts, termAttempts]
    rw [hout, promiseAll_resolved]
    · rw [List.map_map]
      congr 3
      apply List.map_congr_left
      intro x hx
      simp [Function.comp, h x hx, settledValue]
    · intro x hx
      obtain ⟨y, hy, hxy⟩ := List.mem_map.mp hx
      exact ⟨f y, by rw [← hxy]; simpa using h y hy⟩
  · intro tpl
    rfl

/-- Witness for C8 at a concrete input: a falsy non-array argument is
rejected with the array validation error. -/
theorem c8_map_witness :
    mapRun nAdd1 (Value.str "no") = some (Outcome.rejected mapErr) :=
  c8_map.1 nAdd1 (Value.str "no") (fun _ h => Value.noConfusion h)

lemma run_append (s : MState) (l1 l2 : List Ev) :
    run s (l1 ++ l2) = run (run s l1) l2 :=
  List.foldl_append ..

lemma cancelStep_of_none (s : MState) (r : Value) (h : s.cancelSlot = none) :
    cancelStep s r = s := by
  simp only [cancelStep, h]

lemma run_cancel_cons (s : MState) (r : Value) (evs : List Ev)
    (h : s.cancelSlot = none) :
    run s (Ev.cancelE r :: evs) = run s evs := by
  show run (cancelStep s r) evs = run s evs
  rw [cancelStep_of_none s r h]

lemma foldl_settleStep_clears : ∀ (l : List Outcome) (st : MState) (ex : Nat),
    l ≠ [] →
    (l.foldl (fun st o => settleStep st ex o) st).cancelSlot = none ∧
    (l.foldl (fun st o => settleStep st ex o) st).timeoutCfg = none := by
  intro l
  induction l with
  | nil => intro st ex h; exact absurd rfl h
  | cons a l2 ih =>
    intro st ex _
    rw [List.foldl_cons]
    cases l2 with
    | nil => exact ⟨rfl, rfl⟩
    | cons b l3 => exact ih (settleStep st ex a) ex (by simp)

lemma run_replicate_succ (s : MState) (k : Nat) :
    run s (List.replicate (k + 1) Ev.tickE)
      = run (tick s) (List.replicate k Ev.tickE) := by
  rw [List.replicate_succ]
  rfl

lemma run_replicate_ticks_all (g : Nat → MState)
    (hstep : ∀ i, tick (g i) = g (i + 1)) :
    ∀ (k a : Nat), run (g a) (List.replicate k Ev.tickE) = g (a + k) := by
  intro k
  induction k with
  | zero => intro a; rfl
  | succ k ih =>
    intro a
    rw [run_replicate_succ, hstep a, ih (a + 1)]
    congr 1
    omega

lemma run_replicate_ticks_bounded (g : Nat → MState) (b : Nat)
    (hstep : ∀ i, i < b → tick (g i) = g (i + 1)) :
    ∀ (k a : Nat), a + k ≤ b → run (g a) (List.replicate k Ev.tickE) = g (a + k) := by
  intro k
  induction k with
  | zero => intro a _; rfl
  | succ k ih =>
    intro a hab
    rw [run_replicate_succ, hstep a (by omega), ih (a + 1) (by omega)]
    congr 1
    omega

lemma tick_psState (m : Nat) (r : Value) (i : Nat) (h : i + 1 < m) :
    tick (psState m r i) = psState m r (i + 1) := by
  have hle : ¬m ≤ i + 1 := by omega
  simp [tick, fireTimers, fireDelays, fireTimer, psState, hle, List.getD,
    List.range_succ, List.range_zero, List.foldl_append, List.foldl_cons, List.foldl_nil]

lemma tick_psState_fire (m : Nat) (r : Value) (j : Nat) (h : m ≤ j + 1) :
    tick (psState m r j) = timeoutFired r (j + 1) := by
  simp [tick, fireTimers, fireDelays, fireTimer, cancelStep, settleStep,
    psState, timeoutFired, h, List.getD,
    List.range_succ, List.range_zero, List.foldl_append, List.foldl_cons, List.foldl_nil]

lemma tick_timeoutFired (r : Value) (j : Nat) :
    tick (timeoutFired r j) = timeoutFired r (j + 1) := by
  simp [tick, fireTimers, fireDelays, fireTimer, timeoutFired, List.getD,
    List.range_succ, List.range_zero, List.foldl_append, List.foldl_cons, List.foldl_nil]

lemma run_timeout_do_pending (m : Nat) (r : Value) :
    run mkTask [Ev.timeoutE (Value.num (m : Int)) r,
      Ev.doE (.sync [] .retUndef)] = psState m r 0 := by
  show doStep (timeoutStep mkTask (Value.num (m : Int)) r) (.sync [] .retUndef)
      = psState m r 0
  simp [doStep, termSettle, timeoutStep, mkTask, psState]

lemma run_timeout_do_sync (m : Nat) (r v : Value) :
    run mkTask [Ev.timeoutE (Value.num (m : Int)) r,
      Ev.doE (.sync [Signal.done v] .retUndef)]
      = ⟨0, 1, none, none, [some (.resolved v)], [none], []⟩ := rfl

lemma tick_idle1 (a : Option Outcome) (j nd : Nat) (cs : Option Nat)
    (cfg : Option (Int × Value)) :
    tick (⟨j, nd, cs, cfg, [a], [none], []⟩ : MState)
      = ⟨j + 1, nd, cs, cfg, [a], [none], []⟩ := by
  simp [tick, fireTimers, fireDelays, fireTimer, List.getD,
    List.range_succ, List.range_zero, List.foldl_append, List.foldl_cons,
    List.foldl_nil]

lemma termSettle_cancelSlot (st : MState) (ex : Nat) (t : SyncTermination)
    (h : st.cancelSlot = none) : (termSettle st ex t).cancelSlot = none := by
  cases t with
  | throwsErr e => exact h
  | retPlain v => rfl
  | retUndef => exact h
  | retPromise => exact h

lemma termSettle_timeoutCfg (st : MState) (ex : Nat) (t : SyncTermination)
    (h : st.timeoutCfg = none) : (termSettle st ex t).timeoutCfg = none := by
  cases t with
  | throwsErr e => exact h
  | retPlain v => rfl
  | retUndef => exact h
  | retPromise => exact h

/-- Claim C4 counterexample: a first execution settles, a second one
starts and is outstanding, then the template of the first execution
makes a late duplicate done call; the handle nulls the _cancel field of
the task unconditionally, so cancel now returns false although execution
1 is outstanding, where the claim requires true. -/
theorem c4_cancel_counterexample :
    outstanding (run mkTask
      [Ev.doE (.sync [] .retUndef),
       Ev.sigE 0 (Outcome.resolved (Value.num 1)),
       Ev.doE (.sync [] .retUndef),
       Ev.sigE 0 (Outcome.resolved (Value.num 1))]) 1 ∧
    cancelRet (run mkTask
      [Ev.doE (.sync [] .retUndef),
       Ev.sigE 0 (Outcome.resolved (Value.num 1)),
       Ev.doE (.sync [] .retUndef),
       Ev.sigE 0 (Outcome.resolved (Value.num 1))]) = false :=
  ⟨⟨by decide, rfl⟩, rfl⟩

/-- Claim C4 amended: cancel returns false and has no effect before any
do call; after the current execution settled through a handle call
(done or failed, the implicit resolve of a returned plain value, or a
settled returned future), cancel returns false and any subsequent events
run exactly as without the cancel call; after a settlement by a
synchronous throw the handle is not cleared (the native reject bypasses
the wrappers), so cancel still returns true and nulls the control
fields, but cannot change the settled outcome; while an execution is
outstanding and no late signal of an earlier execution has cleared the
cancellation handle, cancel returns true, rejects the outstanding future
with the supplied reason, and a later natural completion cannot change
that outcome. -/
theorem c4_cancel_amended :
    (∀ r : Value, cancelRet mkTask = false ∧ cancelStep mkTask r = mkTask) ∧
    (∀ (r : Value) (sig : Signal) (rest : List Signal) (t : SyncTermination)
      (evs : List Ev),
      cancelRet (run mkTask [Ev.doE (.sync (sig :: rest) t)]) = false ∧
      run mkTask (Ev.doE (.sync (sig :: rest) t) :: Ev.cancelE r :: evs)
        = run mkTask (Ev.doE (.sync (sig :: rest) t) :: evs)) ∧
    (∀ (r v : Value) (evs : List Ev),
      cancelRet (run mkTask [Ev.doE (.sync [] (.retPlain v))]) = false ∧
      run mkTask (Ev.doE (.sync [] (.retPlain v)) :: Ev.cancelE r :: evs)
        = run mkTask (Ev.doE (.sync [] (.retPlain v)) :: evs)) ∧
    (∀ (r : Value) (o : Outcome) (evs : List Ev),
      cancelRet (run mkTask [Ev.doE (.sync [] .retPromise), Ev.sigE 0 o]) = false ∧
      run mkTask (Ev.doE (.sync [] .retPromise) :: Ev.sigE 0 o ::
          Ev.cancelE r :: evs)
        = run mkTask (Ev.doE (.sync [] .retPromise) :: Ev.sigE 0 o :: evs)) ∧
    (∀ r e : Value,
      cancelRet (run mkTask [Ev.doE (.sync [] (.throwsErr e))]) = true ∧
      (run mkTask [Ev.doE (.sync [] (.throwsErr e)),
        Ev.cancelE r]).outcomes.getD 0 none = some (.rejected e) ∧
      (run mkTask [Ev.doE (.sync [] (.throwsErr e)),
        Ev.cancelE r]).cancelSlot = none) ∧
    (∀ (r : Value) (o : Outcome),
      cancelRet (run mkTask [Ev.doE (.sync [] .retUndef)]) = true ∧
      (run mkTask [Ev.doE (.sync [] .retUndef),
        Ev.cancelE r]).outcomes.getD 0 none = some (.rejected r) ∧
      (run mkTask [Ev.doE (.sync [] .retUndef), Ev.cancelE r,
        Ev.sigE 0 o]).outcomes.getD 0 none = some (.rejected r)) := by
  refine ⟨?_, ?_, ?_, ?_, ?_, ?_⟩
  · intro r; exact ⟨rfl, rfl⟩
  · intro r sig rest t evs
    have hfold : (((sig :: rest).map Signal.toOutcome).foldl
        (fun st o => settleStep st 0 o)
        (⟨0, 1, some 0, none, [none], [none], []⟩ : MState)).cancelSlot = none :=
      (foldl_settleStep_clears _ _ 0 (by simp)).1
    have h1 : (run mkTask [Ev.doE (.sync (sig :: rest) t)]).cancelSlot = none := by
      show (termSettle (((sig :: rest).map Signal.toOutcome).foldl
          (fun st o => settleStep st 0 o)
          (⟨0, 1, some 0, none, [none], [none], []⟩ : MState)) 0 t).cancelSlot
          = none
      exact termSettle_cancelSlot _ 0 t hfold
    constructor
    · show (run mkTask [Ev.doE (.sync (sig :: rest) t)]).cancelSlot.isSome = false
      rw [h1]
      rfl
    · exact run_cancel_cons _ r evs h1
  · intro r v evs
    have h1 : (run mkTask [Ev.doE (.sync [] (.retPlain v))]).cancelSlot
        = none := rfl
    exact ⟨rfl, run_cancel_cons _ r evs h1⟩
  · intro r o evs
    have h1 : (run mkTask [Ev.doE (.sync [] .retPromise),
        Ev.sigE 0 o]).cancelSlot = none := rfl
    exact ⟨rfl, run_cancel_cons _ r evs h1⟩
  · intro r e
    exact ⟨rfl, rfl, rfl⟩
  · intro r o
    exact ⟨rfl, rfl, rfl⟩

/-- Witness for the amended C4 at a concrete input: after a template
settled synchronously by calling done with 3, cancel returns false and a
cancel call leaves the state exactly as it was. -/
theorem c4_cancel_amended_witness :
    cancelRet (run mkTask
      [Ev.doE (.sync [Signal.done (Value.num 3)] .retUndef)]) = false ∧
    run mkTask [Ev.doE (.sync [Signal.done (Value.num 3)] .retUndef),
        Ev.cancelE (Value.str "c")]
      = run mkTask [Ev.doE (.sync [Signal.done (Value.num 3)] .retUndef)] :=
  c4_cancel_amended.2.1 (Value.str "c") (Signal.done (Value.num 3)) [] .retUndef []

/-- Claim C5 counterexample: the source only checks typeof number, so
the negative duration -5 neither throws nor is refused: the call returns
true and the configuration is stored, where the claim requires a failure
for any value that is not a valid non-negative number. -/
theorem c5_timeout_counterexample :
    timeoutThrows (Value.num (-5)) = false ∧
    timeoutRet mkTask (Value.num (-5)) = true ∧
    (timeoutStep mkTask (Value.num (-5)) (Value.str "late")).timeoutCfg
      = some (-5, Value.str "late") :=
  ⟨rfl, rfl, rfl⟩

/-- Claim C5 amended: a timeout call throws exactly when the duration is
not a number (negative numbers are accepted and stored); its boolean and
its effect are keyed on the _cancel field rather than on an execution
being outstanding: it returns false and leaves the state unchanged while
the cancellation handle is held — including after an execution settled
by a synchronous throw, where nothing is outstanding any more — and
returns true, recording duration and reason, while the handle is clear —
including when a late duplicate signal cleared it although an execution
is still outstanding; once armed, when the next execution never settles
the future is rejected with the configured reason after the duration
elapses, and when the template settles first, synchronously or before
the deadline, the timeout has no effect on the outcome. -/
theorem c5_timeout_amended :
    (∀ n : Int, timeoutThrows (Value.num n) = false) ∧
    (∀ v : Value, isNum v = false → timeoutThrows v = true) ∧
    (∀ (s : MState) (ms r : Value), s.cancelSlot.isSome = true →
      timeoutRet s ms = false ∧
      (∀ m : Int, ms = Value.num m → timeoutStep s ms r = s)) ∧
    (∀ (s : MState) (m : Int) (r : Value), s.cancelSlot = none →
      timeoutRet s (Value.num m) = true ∧
      timeoutStep s (Value.num m) r = { s with timeoutCfg := some (m, r) }) ∧
    (∀ (e : Value) (m : Int) (r : Value),
      (run mkTask [Ev.doE (.sync [] (.throwsErr e))]).outcomes.getD 0 none
        = some (.rejected e) ∧
      timeoutRet (run mkTask [Ev.doE (.sync [] (.throwsErr e))])
        (Value.num m) = false ∧
      timeoutStep (run mkTask [Ev.doE (.sync [] (.throwsErr e))])
        (Value.num m) r = run mkTask [Ev.doE (.sync [] (.throwsErr e))]) ∧
    (∀ (o1 o2 : Outcome) (m : Int) (r : Value),
      outstanding (run mkTask [Ev.doE (.sync [] .retUndef), Ev.sigE 0 o1,
        Ev.doE (.sync [] .retUndef), Ev.sigE 0 o2]) 1 ∧
      timeoutRet (run mkTask [Ev.doE (.sync [] .retUndef), Ev.sigE 0 o1,
        Ev.doE (.sync [] .retUndef), Ev.sigE 0 o2]) (Value.num m) = true ∧
      (timeoutStep (run mkTask [Ev.doE (.sync [] .retUndef), Ev.sigE 0 o1,
        Ev.doE (.sync [] .retUndef), Ev.sigE 0 o2])
        (Value.num m) r).timeoutCfg = some (m, r)) ∧
    (∀ (m k : Nat) (r : Value), m ≤ k → 1 ≤ k →
      (run mkTask ([Ev.timeoutE (Value.num (m : Int)) r,
          Ev.doE (.sync [] .retUndef)]
        ++ List.replicate k Ev.tickE)).outcomes.getD 0 none
        = some (.rejected r)) ∧
    (∀ (m k : Nat) (r v : Value),
      (run mkTask ([Ev.timeoutE (Value.num (m : Int)) r,
          Ev.doE (.sync [Signal.done v] .retUndef)]
        ++ List.replicate k Ev.tickE)).outcomes.getD 0 none
        = some (.resolved v)) ∧
    (∀ (m j k : Nat) (r : Value) (o : Outcome), j < m →
      (run mkTask ([Ev.timeoutE (Value.num (m : Int)) r,
          Ev.doE (.sync [] .retUndef)]
        ++ List.replicate j Ev.tickE ++ [Ev.sigE 0 o]
        ++ List.replicate k Ev.tickE)).outcomes.getD 0 none
        = some o) := by
  refine ⟨fun n => rfl, ?_, ?_, ?_, ?_, ?_, ?_, ?_, ?_⟩
  · intro v h
    simp [timeoutThrows, h]
  · intro s ms r h
    constructor
    · simp [timeoutRet, h]
    · intro m hm
      subst hm
      simp [timeoutStep, h]
  · intro s m r h
    constructor
    · simp [timeoutRet, isNum, h]
    · simp [timeoutStep, h]
  · intro e m r
    exact ⟨rfl, rfl, rfl⟩
  · intro o1 o2 m r
    exact ⟨⟨Nat.one_lt_two, rfl⟩, rfl, rfl⟩
  · intro m k r hmk h1k
    rw [run_append, run_timeout_do_pending]
    rcases Nat.eq_zero_or_pos m with hm | hm
    · subst hm
      obtain ⟨k2, rfl⟩ : ∃ k2, k = k2 + 1 := ⟨k - 1, by omega⟩
      rw [run_replicate_succ]
      have hfire : tick (psState 0 r 0) = timeoutFired r 1 :=
        tick_psState_fire 0 r 0 (by omega)
      rw [hfire]
      have hidle : run (timeoutFired r 1) (List.replicate k2 Ev.tickE)
          = timeoutFired r (1 + k2) :=
        run_replicate_ticks_all (timeoutFired r) (tick_timeoutFired r) k2 1
      rw [hidle]
      rfl
    · obtain ⟨k2, rfl⟩ : ∃ k2, k = ((m - 1) + 1) + k2 := ⟨k - m, by omega⟩
      rw [List.replicate_add, run_append, List.replicate_succ', run_append]
      have hpend : run (psState m r 0) (List.replicate (m - 1) Ev.tickE)
          = psState m r (m - 1) := by
        have := run_replicate_ticks_bounded (psState m r) (m - 1)
          (fun i hi => tick_psState m r i (by omega)) (m - 1) 0 (by omega)
        simpa using this
      rw [hpend]
      have hfire : run (psState m r (m - 1)) [Ev.tickE]
          = timeoutFired r ((m - 1) + 1) :=
        tick_psState_fire m r (m - 1) (by omega)
      rw [hfire]
      have hidle : run (timeoutFired r ((m - 1) + 1))
          (List.replicate k2 Ev.tickE) = timeoutFired r ((m - 1) + 1 + k2) :=
        run_replicate_ticks_all (timeoutFired r) (tick_timeoutFired r) k2
          ((m - 1) + 1)
      rw [hidle]
      rfl
  · intro m k r v
    rw [run_append, run_timeout_do_sync]
    have hidle : run (⟨0, 1, none, none, [some (.resolved v)], [none], []⟩ : MState)
        (List.replicate k Ev.tickE)
        = (⟨0 + k, 1, none, none, [some (.resolved v)], [none], []⟩ : MState) :=
      run_replicate_ticks_all
        (fun j => (⟨j, 1, none, none, [some (.resolved v)], [none], []⟩ : MState))
        (fun i => tick_idle1 (some (.resolved v)) i 1 none none) k 0
    rw [hidle]
    rfl
  · intro m j k r o hjm
    rw [run_append, run_append, run_append, run_timeout_do_pending]
    have hpend : run (psState m r 0) (List.replicate j Ev.tickE)
        = psState m r j := by
      have := run_replicate_ticks_bounded (psState m r) (m - 1)
        (fun i hi => tick_psState m r i (by omega)) j 0 (by omega)
      simpa using this
    rw [hpend]
    have hsig : run (psState m r j) [Ev.sigE 0 o]
        = (⟨j, 1, none, none, [some o], [none], []⟩ : MState) := rfl
    rw [hsig]
    have hidle : run (⟨j, 1, none, none, [some o], [none], []⟩ : MState)
        (List.replicate k Ev.tickE)
        = (⟨j + k, 1, none, none, [some o], [none], []⟩ : MState) :=
      run_replicate_ticks_all
        (fun i => (⟨i, 1, none, none, [some o], [none], []⟩ : MState))
        (fun i => tick_idle1 (some o) i 1 none none) k j
    rw [hidle]
    rfl

/-- Witness for the amended C5 at a concrete input: armed with duration
2, an execution whose template never settles is rejected with the
configured reason after 3 milliseconds. -/
theorem c5_timeout_amended_witness :
    (run mkTask ([Ev.timeoutE (Value.num 2) (Value.str "T"),
        Ev.doE (.sync [] .retUndef)]
      ++ List.replicate 3 Ev.tickE)).outcomes.getD 0 none
      = some (Outcome.rejected (Value.str "T")) :=
  c5_timeout_amended.2.2.2.2.2.2.1 2 3 (Value.str "T") (by decide) (by decide)

/-- Claim C9 counterexample: after timeout(5, t) and a do call whose
template stays pending, the configuration is still stored on the task,
and a second do call arms a second timer from the same single
configuration; the claim requires the configuration to be cleared as the
execution starts and to be applied to at most one execution. -/
theorem c9_timeout_oneshot_counterexample :
    (run mkTask [Ev.timeoutE (Value.num 5) (Value.str "t"),
      Ev.doE (.sync [] .retUndef)]).timeoutCfg = some (5, Value.str "t") ∧
    (run mkTask [Ev.timeoutE (Value.num 5) (Value.str "t"),
      Ev.doE (.sync [] .retUndef),
      Ev.doE (.sync [] .retUndef)]).armed
      = [some (5, Value.str "t"), some (5, Value.str "t")] :=
  ⟨rfl, rfl⟩

/-- Claim C9 amended: the configured timeout is armed at each execution
start and cleared only when a settlement handle runs: while the
execution is pending the configuration stays stored; when the execution
settles through a handle call (a synchronous done or failed, the
implicit resolve of a returned plain value, or a later signal) the
configuration is cleared and a subsequent do call arms no timer; but a
settlement by a synchronous throw bypasses the handles and leaves the
configuration stored, and a later do call arms the same configuration
again, so one configuration is applied to at most one execution only
when the execution settles through the handles. -/
theorem c9_timeout_oneshot_amended :
    (∀ (m : Nat) (r : Value),
      (run mkTask [Ev.timeoutE (Value.num (m : Int)) r,
        Ev.doE (.sync [] .retUndef)]).timeoutCfg = some ((m : Int), r) ∧
      (run mkTask [Ev.timeoutE (Value.num (m : Int)) r,
        Ev.doE (.sync [] .retUndef)]).armed = [some (m, r)]) ∧
    (∀ (m : Nat) (r : Value) (sig : Signal) (rest : List Signal)
      (t : SyncTermination),
      (run mkTask [Ev.timeoutE (Value.num (m : Int)) r,
        Ev.doE (.sync (sig :: rest) t)]).timeoutCfg = none) ∧
    (∀ (m : Nat) (r v : Value),
      (run mkTask [Ev.timeoutE (Value.num (m : Int)) r,
        Ev.doE (.sync [] (.retPlain v))]).timeoutCfg = none) ∧
    (∀ (m : Nat) (r : Value) (o : Outcome),
      (run mkTask [Ev.timeoutE (Value.num (m : Int)) r,
        Ev.doE (.sync [] .retUndef), Ev.sigE 0 o]).timeoutCfg = none) ∧
    (∀ (m : Nat) (r : Value) (o : Outcome),
      (run mkTask [Ev.timeoutE (Value.num (m : Int)) r,
        Ev.doE (.sync [] .retUndef), Ev.sigE 0 o,
        Ev.doE (.sync [] .retUndef)]).armed.getD 1 none = none) ∧
    (∀ (m : Nat) (r e : Value),
      (run mkTask [Ev.timeoutE (Value.num (m : Int)) r,
        Ev.doE (.sync [] (.throwsErr e))]).timeoutCfg = some ((m : Int), r) ∧
      (run mkTask [Ev.timeoutE (Value.num (m : Int)) r,
        Ev.doE (.sync [] (.throwsErr e)),
        Ev.doE (.sync [] .retUndef)]).armed.getD 1 none = some (m, r)) := by
  refine ⟨?_, ?_, ?_, ?_, ?_, ?_⟩
  · intro m r
    rw [run_timeout_do_pending]
    exact ⟨rfl, rfl⟩
  · intro m r sig rest t
    show (termSettle (((sig :: rest).map Signal.toOutcome).foldl
        (fun st o => settleStep st 0 o)
        (⟨0, 1, some 0, some ((m : Int), r), [none],
          [some (0 + (m : Int).toNat, r)], []⟩ : MState)) 0 t).timeoutCfg = none
    exact termSettle_timeoutCfg _ 0 t
      (foldl_settleStep_clears _ _ 0 (by simp)).2
  · intro m r v
    rfl
  · intro m r o
    rfl
  · intro m r o
    rfl
  · intro m r e
    constructor
    · rfl
    · show (doStep (doStep (timeoutStep mkTask (Value.num (m : Int)) r)
          (.sync [] (.throwsErr e))) (.sync [] .retUndef)).armed.getD 1 none
          = some (m, r)
      simp [doStep, termSettle, nativeSettle, timeoutStep, mkTask, List.getD]

/-- Witness for the amended C9 at a concrete input: after arming with
duration 1 and a template that settles synchronously by calling done,
the configuration is no longer stored. -/
theorem c9_timeout_oneshot_amended_witness :
    (run mkTask [Ev.timeoutE (Value.num 1) (Value.str "x"),
      Ev.doE (.sync [Signal.done (Value.num 0)] .retUndef)]).timeoutCfg
      = none :=
  c9_timeout_oneshot_amended.2.1 1 (Value.str "x") (Signal.done (Value.num 0))
    [] .retUndef

lemma run_delay_do (d : Nat) (o : Outcome) :
    run mkTask [Ev.doE (.delayedCall (d : Int) o)] = delayPending d o 0 := by
  show doStep mkTask (.delayedCall (d : Int) o) = delayPending d o 0
  simp [doStep, mkTask, delayPending]

lemma tick_delayPending (d : Nat) (o : Outcome) (i : Nat) (h : i + 1 < d) :
    tick (delayPending d o i) = delayPending d o (i + 1) := by
  have hle : ¬d ≤ i + 1 := by omega
  simp [tick, fireTimers, fireDelays, fireTimer, fireDelay, delayPending,
    hle, List.getD, List.range_succ, List.range_zero, List.foldl_append,
    List.foldl_cons, List.foldl_nil]

lemma cancel_delayPending (d : Nat) (o : Outcome) (r : Value) (j : Nat) :
    cancelStep (delayPending d o j) r = delayCancelled d o r j false := rfl

lemma tick_delayCancelled_wait (d : Nat) (o : Outcome) (r : Value) (i : Nat)
    (h : i + 1 < d) :
    tick (delayCancelled d o r i false) = delayCancelled d o r (i + 1) false := by
  have hle : ¬d ≤ i + 1 := by omega
  simp [tick, fireTimers, fireDelays, fireTimer, fireDelay, delayCancelled,
    hle, List.getD, List.range_succ, List.range_zero, List.foldl_append,
    List.foldl_cons, List.foldl_nil]

lemma tick_delayCancelled_fire (d : Nat) (o : Outcome) (r : Value) (j : Nat)
    (h : d ≤ j + 1) :
    tick (delayCancelled d o r j false) = delayCancelled d o r (j + 1) true := by
  simp [tick, fireTimers, fireDelays, fireTimer, fireDelay, settleStep,
    delayCancelled, h, List.getD, List.range_succ, List.range_zero,
    List.foldl_append, List.foldl_cons, List.foldl_nil]

lemma tick_delayCancelled_done (d : Nat) (o : Outcome) (r : Value) (i : Nat) :
    tick (delayCancelled d o r i true) = delayCancelled d o r (i + 1) true := by
  simp [tick, fireTimers, fireDelays, fireTimer, fireDelay, delayCancelled,
    List.getD, List.range_succ, List.range_zero, List.foldl_append,
    List.foldl_cons, List.foldl_nil]

/-- Claim C10: the wait window of a delay composite counts as an
outstanding execution: at any time before the delay elapses, cancel
returns true; cancelling rejects the future with the supplied reason at
once while the armed delay timer stays untouched; and once the delay
elapses the timer still fires, invoking the underlying template, whose
outcome is discarded because the future is already settled. -/
theorem c10_delay_cancel_window :
    (∀ (d : Nat) (o : Outcome) (j : Nat), j < max d 1 →
      cancelRet (run mkTask (Ev.doE (.delayedCall (d : Int) o)
        :: List.replicate j Ev.tickE)) = true) ∧
    (∀ (d : Nat) (o : Outcome) (r : Value),
      (run mkTask [Ev.doE (.delayedCall (d : Int) o),
        Ev.cancelE r]).outcomes.getD 0 none = some (.rejected r) ∧
      (run mkTask [Ev.doE (.delayedCall (d : Int) o),
        Ev.cancelE r]).delays = [⟨d, 0, o, false⟩]) ∧
    (∀ (d : Nat) (o : Outcome) (r : Value) (k : Nat), max d 1 ≤ k →
      (run mkTask (Ev.doE (.delayedCall (d : Int) o) :: Ev.cancelE r ::
        List.replicate k Ev.tickE)).delays = [⟨d, 0, o, true⟩] ∧
      (run mkTask (Ev.doE (.delayedCall (d : Int) o) :: Ev.cancelE r ::
        List.replicate k Ev.tickE)).outcomes.getD 0 none
        = some (.rejected r)) := by
  refine ⟨?_, ?_, ?_⟩
  · intro d o j hj
    show cancelRet (run (run mkTask [Ev.doE (.delayedCall (d : Int) o)])
      (List.replicate j Ev.tickE)) = true
    rw [run_delay_do]
    rcases Nat.eq_zero_or_pos d with hd | hd
    · subst hd
      have hj0 : j = 0 := by omega
      subst hj0
      rfl
    · have hpend : run (delayPending d o 0) (List.replicate j Ev.tickE)
          = delayPending d o j := by
        have := run_replicate_ticks_bounded (delayPending d o) (d - 1)
          (fun i hi => tick_delayPending d o i (by omega)) j 0 (by omega)
        simpa using this
      rw [hpend]
      rfl
  · intro d o r
    constructor
    · rfl
    · show (cancelStep (run mkTask [Ev.doE (.delayedCall (d : Int) o)]) r).delays
          = [⟨d, 0, o, false⟩]
      rw [run_delay_do, cancel_delayPending]
      rfl
  · intro d o r k hk
    obtain ⟨k2, rfl⟩ : ∃ k2, k = ((d - 1) + 1) + k2 :=
      ⟨k - ((d - 1) + 1), by omega⟩
    have hbase : run mkTask [Ev.doE (.delayedCall (d : Int) o), Ev.cancelE r]
        = delayCancelled d o r 0 false := by
      show cancelStep (run mkTask [Ev.doE (.delayedCall (d : Int) o)]) r
          = delayCancelled d o r 0 false
      rw [run_delay_do, cancel_delayPending]
    have hrun : run mkTask (Ev.doE (.delayedCall (d : Int) o) :: Ev.cancelE r ::
        List.replicate ((d - 1) + 1 + k2) Ev.tickE)
        = delayCancelled d o r ((d - 1) + 1 + k2) true := by
      have h0 : run mkTask (Ev.doE (.delayedCall (d : Int) o) :: Ev.cancelE r ::
          List.replicate ((d - 1) + 1 + k2) Ev.tickE)
          = run (delayCancelled d o r 0 false)
              (List.replicate ((d - 1) + 1 + k2) Ev.tickE) := by
        show run (run mkTask [Ev.doE (.delayedCall (d : Int) o), Ev.cancelE r])
            (List.replicate ((d - 1) + 1 + k2) Ev.tickE)
            = run (delayCancelled d o r 0 false)
                (List.replicate ((d - 1) + 1 + k2) Ev.tickE)
        rw [hbase]
      rw [h0, List.replicate_add, run_append, List.replicate_succ', run_append]
      have hwait : run (delayCancelled d o r 0 false)
          (List.replicate (d - 1) Ev.tickE) = delayCancelled d o r (d - 1) false := by
        have := run_replicate_ticks_bounded (fun i => delayCancelled d o r i false)
          (d - 1) (fun i hi => tick_delayCancelled_wait d o r i (by omega))
          (d - 1) 0 (by omega)
        simpa using this
      rw [hwait]
      have hfire : run (delayCancelled d o r (d - 1) false) [Ev.tickE]
          = delayCancelled d o r ((d - 1) + 1) true :=
        tick_delayCancelled_fire d o r (d - 1) (by omega)
      rw [hfire]
      have hidle : run (delayCancelled d o r ((d - 1) + 1) true)
          (List.replicate k2 Ev.tickE)
          = delayCancelled d o r ((d - 1) + 1 + k2) true :=
        run_replicate_ticks_all (fun i => delayCancelled d o r i true)
          (fun i => tick_delayCancelled_done d o r i) k2 ((d - 1) + 1)
      rw [hidle]
    exact ⟨by rw [hrun]; rfl, by rw [hrun]; rfl⟩

/-- Witness for C10 at a concrete input: with a delay of 2 the composite
is cancellable after 1 millisecond, and after cancelling, 5 milliseconds
later the delay timer has fired and invoked the template (entry marked
fired) while the future stays rejected. -/
theorem c10_delay_cancel_window_witness :
    cancelRet (run mkTask (Ev.doE (.delayedCall 2 (Outcome.resolved (Value.num 9)))
      :: List.replicate 1 Ev.tickE)) = true ∧
    (run mkTask (Ev.doE (.delayedCall 2 (Outcome.resolved (Value.num 9)))
      :: Ev.cancelE (Value.str "stop") :: List.replicate 5 Ev.tickE)).delays
      = [⟨2, 0, Outcome.resolved (Value.num 9), true⟩] :=
  ⟨c10_delay_cancel_window.1 2 (Outcome.resolved (Value.num 9)) 1 (by decide),
   (c10_delay_cancel_window.2.2 2 (Outcome.resolved (Value.num 9))
     (Value.str "stop") 5 (by decide)).1⟩

end TaskJS
